import Mathlib

/-!
Verification development for the `wxdown-service` repository
(`src/main/utils.ts`): a shallow embedding in Lean 4 of the sandboxed
static file server, the credential extraction pipeline, the credential
store mutator, the file-server registry and the resource-cleanup
sequence, together with theorems settling the specification's claims.

Conventions of the embedding:
* JavaScript strings are Lean `String`s; character-level work is done on
  `List Char`.
* JavaScript numbers holding epoch-millisecond timestamps are `Int`.
* A JavaScript exception escaping a function is `Except.error`.
* External builtins that the repository merely calls (`JSON.parse`,
  `JSON.stringify`, the `dayjs` formatter, `encodeURIComponent`) are
  parameters bundled in a `JsEnv`; builtins whose behaviour the claims
  depend on (`decodeURIComponent`, `path.normalize`/`path.join`, the
  WHATWG `URL` constructor, `String.prototype.match` on the fixed
  `wap_sid2` regular expression, stable `Array.prototype.sort`) are
  modelled concretely below.
-/

namespace WxDown

/-! ## Character-level string utilities -/

/-- Numeric value of one hexadecimal digit, upper or lower case. -/
def hexDigitVal (c : Char) : Option Nat :=
  if '0' ≤ c ∧ c ≤ '9' then some (c.toNat - '0'.toNat)
  else if 'a' ≤ c ∧ c ≤ 'f' then some (c.toNat - 'a'.toNat + 10)
  else if 'A' ≤ c ∧ c ≤ 'F' then some (c.toNat - 'A'.toNat + 10)
  else none

/-- Model of the JavaScript `decodeURIComponent` builtin on a character
list, restricted to single-byte escapes: every valid `%hh` pair becomes
the character with code `hh`.  (The real builtin additionally reassembles
multi-byte UTF-8 sequences and throws `URIError` on a malformed escape;
no theorem below relies on either behaviour, and a malformed escape is
left in place here.) -/
def decodeURIComponentChars : List Char → List Char
  | '%' :: a :: b :: rest =>
    match hexDigitVal a, hexDigitVal b with
    | some hi, some lo => Char.ofNat (16 * hi + lo) :: decodeURIComponentChars rest
    | _, _ => '%' :: decodeURIComponentChars (a :: b :: rest)
  | c :: rest => c :: decodeURIComponentChars rest
  | [] => []

/-- Version of `decodeURIComponent` acting on `String`s. -/
def decodeURIComponent (s : String) : String :=
  String.mk (decodeURIComponentChars s.toList)

/-- Split a character list on a separator character (the separator is
consumed; empty groups are kept). -/
def splitOnChar (sep : Char) : List Char → List (List Char)
  | [] => [[]]
  | c :: cs =>
    match splitOnChar sep cs with
    | [] => if c == sep then [[], []] else [[c]]
    | grp :: rest => if c == sep then [] :: grp :: rest else (c :: grp) :: rest

/-! ## POSIX path model (`path.join` / `path.normalize`) -/

/-- Resolve `.` and `..` segments against a stack of kept segments, as
`path.normalize` does on POSIX: empty and `.` segments vanish, `..` pops
a previous real segment, and a `..` that reaches the top is dropped for
an absolute path and kept for a relative one. -/
def normalizeSegs (isAbs : Bool) : List String → List String → List String
  | stack, [] => stack.reverse
  | stack, seg :: rest =>
    if seg == "" || seg == "." then normalizeSegs isAbs stack rest
    else if seg == ".." then
      match stack with
      | top :: stk =>
        if top == ".." then normalizeSegs isAbs (seg :: top :: stk) rest
        else normalizeSegs isAbs stk rest
      | [] => if isAbs then normalizeSegs isAbs [] rest else normalizeSegs isAbs [seg] rest
    else normalizeSegs isAbs (seg :: stack) rest

/-- Model of Node's `path.normalize` for POSIX separators (trailing-slash
preservation is immaterial to every theorem below and is not modelled). -/
def normalizePath (p : String) : String :=
  let cs := p.toList
  let isAbs := match cs with
    | '/' :: _ => true
    | _ => false
  let segs := (splitOnChar '/' cs).map String.mk
  let out := normalizeSegs isAbs [] segs
  let joined := String.intercalate "/" out
  if isAbs then "/" ++ joined
  else if joined == "" then "." else joined

/-- Model of `path.join(a, b)`: concatenate with a separator, then
normalize — exactly what Node does for two POSIX arguments. -/
def pathJoin (a b : String) : String :=
  normalizePath (a ++ "/" ++ b)

/-- Model of JavaScript `String.prototype.startsWith`. -/
def strStartsWith (s pre : String) : Bool :=
  pre.toList.isPrefixOf s.toList

/-! ## Sandboxed file server request handler

Embedding of the request closure created in `startFileServer`
(`src/main/utils.ts` lines 53–108) up to the first filesystem access.
The handler computes `safePath = path.normalize(path.join(rootDirectory,
req.url))`, answers 403 when `safePath` does not start with
`rootDirectory`, and otherwise proceeds to the filesystem with
`filePath = decodeURIComponent(safePath)` (the directory fallback,
MIME resolution and read all operate on that decoded path, so
`serveFile p` records that the filesystem is first touched at `p`). -/

inductive FileServerResponse where
  | forbidden
  | serveFile (filePath : String)
deriving DecidableEq, Repr

/-- The request handler of the file server, for a given configured root
directory and inbound request path (`req.url`). -/
def handleRequest (rootDirectory url : String) : FileServerResponse :=
  let safePath := pathJoin rootDirectory url
  if strStartsWith safePath rootDirectory then
    FileServerResponse.serveFile (decodeURIComponent safePath)
  else
    FileServerResponse.forbidden

/-! ## WHATWG URL model

The pipeline calls the `URL` constructor (a JS builtin) only to read
`searchParams`.  The model below keeps what that use needs: a string
without a leading scheme (`[A-Za-z][A-Za-z0-9+.-]*:`) fails to construct
(the builtin throws `TypeError`), and for a constructed URL the query is
the text between the first `?` and the fragment, split on `&`, each pair
split at its first `=`, keys and values percent-decoded with `+` as
space.  `searchParams.get` returns the first value for the name, or
`null` (here `none`) when the name is absent. -/

structure URLRecord where
  searchParams : List (String × String)
deriving DecidableEq, Repr

/-- Scheme tail: characters of `[A-Za-z0-9+.-]*` up to a mandatory `:`. -/
def schemeRest : List Char → Bool
  | [] => false
  | c :: cs =>
    if c == ':' then true
    else (c.isAlphanum || c == '+' || c == '-' || c == '.') && schemeRest cs

/-- A string starts with a valid URL scheme. -/
def hasScheme : List Char → Bool
  | [] => false
  | c :: cs => c.isAlpha && schemeRest cs

/-- The query portion of a URL string: after the first `?`, before the
fragment; `none` when there is no `?`. -/
def queryChars (s : List Char) : Option (List Char) :=
  let beforeFrag := s.takeWhile (fun c => c != '#')
  match beforeFrag.dropWhile (fun c => c != '?') with
  | [] => none
  | _ :: rest => some rest

/-- Decode one `application/x-www-form-urlencoded` component. -/
def decodeQueryComponent (l : List Char) : String :=
  String.mk (decodeURIComponentChars (l.map (fun c => if c == '+' then ' ' else c)))

/-- One `name=value` pair of a query string, split at the first `=`. -/
def parseQueryPair (l : List Char) : String × String :=
  let k := l.takeWhile (fun c => c != '=')
  let v := match l.dropWhile (fun c => c != '=') with
    | [] => []
    | _ :: rest => rest
  (decodeQueryComponent k, decodeQueryComponent v)

/-- Model of `new URL(s)` restricted to its `searchParams`; `none` models
the constructor throwing. -/
def parseURL (s : String) : Option URLRecord :=
  if hasScheme s.toList then
    some ⟨match queryChars s.toList with
          | none => []
          | some q => ((splitOnChar '&' q).filter (fun g => !g.isEmpty)).map parseQueryPair⟩
  else none

/-- Model of `searchParams.get(name)`: first value, else `null`. -/
def searchParamsGet (u : URLRecord) (name : String) : Option String :=
  u.searchParams.lookup name

/-! ## The `wap_sid2` cookie-token pattern

`item.set_cookie.match(/wap_sid2=(?<wap_sid2>.+?);/)` returns the
leftmost match: the first occurrence of the literal `wap_sid2=` from
which a lazily-shortest capture of at least one non-line-terminator
character is followed by `;`. -/

/-- A JavaScript line terminator (not matched by `.`). -/
def isLineTerminator (c : Char) : Bool :=
  c == '\n' || c == '\r' || c.toNat == 0x2028 || c.toNat == 0x2029

/-- Lazy capture for `.+?;`: the shortest non-empty line-terminator-free
prefix that is immediately followed by `;`. -/
def lazyCaptureToSemi : List Char → Option (List Char)
  | [] => none
  | c :: cs =>
    if isLineTerminator c then none
    else
      match cs with
      | ';' :: _ => some [c]
      | _ => (lazyCaptureToSemi cs).map (fun cap => c :: cap)

/-- Scan for the leftmost position where the whole pattern matches. -/
def matchWapSid2Chars : List Char → Option (List Char)
  | [] => none
  | c :: cs =>
    if ("wap_sid2=".toList).isPrefixOf (c :: cs) then
      match lazyCaptureToSemi ((c :: cs).drop 9) with
      | some cap => some cap
      | none => matchWapSid2Chars cs
    else matchWapSid2Chars cs

/-- The captured `wap_sid2` group of the regular expression, or `none`
when the cookie header has no match. -/
def matchWapSid2 (s : String) : Option String :=
  (matchWapSid2Chars s.toList).map String.mk

/-! ## Credential data model (`src/main/utils.ts` lines 220–238) -/

/-- A raw captured session record as persisted by the capture watcher. -/
structure Credential where
  biz : String
  url : String
  set_cookie : String
  timestamp : Int
  nickname : String
  round_head_img : String
deriving DecidableEq, Repr

/-- The derived credential record (`ParsedCredential`). -/
structure ParsedCredential where
  nickname : String
  round_head_img : String
  biz : String
  uin : String
  key : String
  pass_ticket : String
  wap_sid2 : String
  time : String
  valid : Bool
deriving DecidableEq, Repr

/-- The external JavaScript builtins the repository calls but does not
implement, bundled as parameters: `JSON.parse` of a `Credential[]`
(`none` models a thrown `SyntaxError`, caught by the repository code),
`JSON.stringify`, the `dayjs(..).format('YYYY-MM-DD HH:mm:ss')`
formatter, and `encodeURIComponent` as used on avatar URLs. -/
structure JsEnv where
  jsonParse : String → Option (List Credential)
  stringify : List Credential → String
  formatTime : Int → String
  encodeURIComponent : String → String

/-- Truthiness of a JavaScript `string | null` value: `null` and the
empty string are falsy. -/
def truthyOpt : Option String → Bool
  | none => false
  | some s => s != ""

/-! ## Credential extraction pipeline (`parseCredentialData`, lines 240–284) -/

/-- The fixed avatar image-proxy base URL. -/
def avatarProxyBase : String := "https://thirsty-alligator-94.deno.dev?url="

/-- One iteration of the extraction loop body for a single session:
parse `item.url` (a failure is the builtin throwing, which escapes the
whole call), read the four query parameters, match the cookie token,
drop the session (`ok none`) when any of the five is falsy, otherwise
build the `ParsedCredential` pushed by the source. -/
def processSession (env : JsEnv) (now : Int) (item : Credential) :
    Except Unit (Option ParsedCredential) :=
  match parseURL item.url with
  | none => Except.error ()
  | some u =>
    let biz := searchParamsGet u "__biz"
    let uin := searchParamsGet u "uin"
    let key := searchParamsGet u "key"
    let pass_ticket := searchParamsGet u "pass_ticket"
    let wap_sid2 := matchWapSid2 item.set_cookie
    if truthyOpt biz && truthyOpt uin && truthyOpt key &&
        truthyOpt pass_ticket && truthyOpt wap_sid2 then
      Except.ok (some
        { nickname := item.nickname
          round_head_img :=
            if item.round_head_img != "" then
              avatarProxyBase ++ env.encodeURIComponent item.round_head_img
            else item.round_head_img
          biz := biz.getD ""
          uin := uin.getD ""
          key := key.getD ""
          pass_ticket := pass_ticket.getD ""
          wap_sid2 := wap_sid2.getD ""
          time := env.formatTime item.timestamp
          valid := decide (now < item.timestamp + 1000 * 60 * 25) })
    else
      Except.ok none

/-- Stable insertion step for the comparator
`(a, b) => b.timestamp - a.timestamp`: the new element goes in front of
the first element whose timestamp is not larger. -/
def insertByTimestampDesc (x : Credential) : List Credential → List Credential
  | [] => [x]
  | y :: ys =>
    if x.timestamp < y.timestamp then y :: insertByTimestampDesc x ys
    else x :: y :: ys

/-- Model of `list.sort((a, b) => b.timestamp - a.timestamp)`.
`Array.prototype.sort` is required to be stable and, for this consistent
comparator, its result is the unique stable descending ordering — which
insertion sort computes. -/
def sortByTimestampDesc : List Credential → List Credential
  | [] => []
  | x :: xs => insertByTimestampDesc x (sortByTimestampDesc xs)

/-- The `for` loop of `parseCredentialData` over the sorted list: each
session is processed in order; a thrown error aborts the whole call, a
dropped session contributes nothing, an emitted credential is appended. -/
def parseCredentialLoop (env : JsEnv) (now : Int) :
    List Credential → Except Unit (List ParsedCredential)
  | [] => Except.ok []
  | item :: rest =>
    match processSession env now item with
    | Except.error e => Except.error e
    | Except.ok none => parseCredentialLoop env now rest
    | Except.ok (some c) =>
      match parseCredentialLoop env now rest with
      | Except.error e => Except.error e
      | Except.ok out => Except.ok (c :: out)

/-- The function `parseCredentialData(data)` at evaluation time `now` (`Date.now()`):
`JSON.parse` failure is caught and yields `[]`; otherwise the sorted
list is folded by the loop, whose `URL` errors escape to the caller. -/
def parseCredentialData (env : JsEnv) (now : Int) (data : String) :
    Except Unit (List ParsedCredential) :=
  match env.jsonParse data with
  | none => Except.ok []
  | some list => parseCredentialLoop env now (sortByTimestampDesc list)

/-- A session has all five required fields: its URL constructs, the four
query parameters are present and non-empty, and the cookie token
matches.  (Derived predicate used to state the claims; connected to
`processSession` by `processSession_char` below.) -/
def hasAllFields (item : Credential) : Bool :=
  match parseURL item.url with
  | none => false
  | some u =>
    truthyOpt (searchParamsGet u "__biz") && truthyOpt (searchParamsGet u "uin") &&
    truthyOpt (searchParamsGet u "key") && truthyOpt (searchParamsGet u "pass_ticket") &&
    truthyOpt (matchWapSid2 item.set_cookie)

/-- The credential emitted for a session (meaningful when
`hasAllFields`; total by defaulting absent pieces to `""`). -/
def emitCredential (env : JsEnv) (now : Int) (item : Credential) : ParsedCredential :=
  let u := (parseURL item.url).getD ⟨[]⟩
  { nickname := item.nickname
    round_head_img :=
      if item.round_head_img != "" then
        avatarProxyBase ++ env.encodeURIComponent item.round_head_img
      else item.round_head_img
    biz := (searchParamsGet u "__biz").getD ""
    uin := (searchParamsGet u "uin").getD ""
    key := (searchParamsGet u "key").getD ""
    pass_ticket := (searchParamsGet u "pass_ticket").getD ""
    wap_sid2 := (matchWapSid2 item.set_cookie).getD ""
    time := env.formatTime item.timestamp
    valid := decide (now < item.timestamp + 1000 * 60 * 25) }

/-! ## File-server registry (`startFileServer`, lines 47–123)

The process-wide `_resource.fileServer` map from root directory to
`http.Server` is the state; a server object together with its OS-chosen
bound port is modelled by the `Nat` handed out at creation (`listen(0)`
modelled by a fresh counter).  Sequential acquisition is modelled: the
source registers the server in the map inside the `listen` callback,
before the returned promise resolves, so a second call that begins after
the first resolved sees the registered entry and gets it back through
the `has`/`get` fast path. -/

structure FileServerRegistry where
  servers : List (String × Nat)
  nextPort : Nat
deriving DecidableEq, Repr

/-- The function `startFileServer(rootDirectory)` on a registry state: the existing
instance for the root when there is one, otherwise a newly bound
instance, registered under the root. -/
def startFileServer (rootDirectory : String) (st : FileServerRegistry) :
    Nat × FileServerRegistry :=
  match st.servers.lookup rootDirectory with
  | some srv => (srv, st)
  | none =>
    (st.nextPort, ⟨(rootDirectory, st.nextPort) :: st.servers, st.nextPort + 1⟩)

/-! ## Credential store mutator (`removeBizCredential`, lines 287–305) -/

/-- Outcome of one `removeBizCredential` call: the returned boolean and
the bytes handed to `writeFileContent` (`none` when no write was
attempted).  The function's whole body sits in a `try`/`catch`, so the
call always returns a boolean and never raises — which is why the model
is total and not `Except`-valued. -/
structure RemoveOutcome where
  ret : Bool
  written : Option String
deriving DecidableEq, Repr

/-- The function `removeBizCredential(biz)`: `readResult` is what
`readFileContent(credentialJsonPath)` produced (`none` = the read
rejected, caught by the outer `catch`); `writeOk` is whether the
`writeFileContent` promise resolves (a rejection is caught by the outer
`catch` after the write has been attempted). -/
def removeBizCredential (env : JsEnv) (readResult : Option String)
    (writeOk : Bool) (biz : String) : RemoveOutcome :=
  match readResult with
  | none => ⟨false, none⟩
  | some data =>
    match env.jsonParse data with
    | none => ⟨false, none⟩
    | some list =>
      let filtered := list.filter (fun item => item.biz != biz)
      ⟨writeOk, some (env.stringify filtered)⟩

/-! ## Resource cleanup (`cleanup`, lines 148–164)

`cleanup` awaits, in order: `MitmproxyManager.close()`,
`osProxy.closeProxy()`, `browser.close()` when a browser handle exists,
and `server.close` for every registered file server.  None of the awaits
is guarded: a rejected promise makes `cleanup` itself reject and the
remaining steps never run.  The file-server closes are wrapped in
`new Promise((resolve) => server.close(resolve))`, which always resolves
(the close callback's error argument is ignored), so they carry no
failure parameter.  The model records the list of attempted steps and
whether the call completed without raising. -/

inductive CleanupStep where
  | closeMitmproxy
  | closeOsProxy
  | closeBrowser
  | closeFileServer (i : Nat)
deriving DecidableEq, Repr

/-- The close steps for `n` registered file servers, in map order. -/
def fileServerCloseSteps (n : Nat) : List CleanupStep :=
  (List.range n).map CleanupStep.closeFileServer

/-- The function `cleanup()` given whether `MitmproxyManager.close` and
`osProxy.closeProxy` resolve, whether a browser handle exists and (if
so) whether its `close` resolves, and the number of registered file
servers.  Returns the attempted-step trace and whether the call
completed without raising. -/
def cleanup (mitmCloseOk osProxyCloseOk : Bool) (browser : Option Bool)
    (serverCount : Nat) : List CleanupStep × Bool :=
  if mitmCloseOk = false then
    ([CleanupStep.closeMitmproxy], false)
  else if osProxyCloseOk = false then
    ([CleanupStep.closeMitmproxy, CleanupStep.closeOsProxy], false)
  else
    match browser with
    | some false =>
      ([CleanupStep.closeMitmproxy, CleanupStep.closeOsProxy,
        CleanupStep.closeBrowser], false)
    | some true =>
      ([CleanupStep.closeMitmproxy, CleanupStep.closeOsProxy,
        CleanupStep.closeBrowser] ++ fileServerCloseSteps serverCount, true)
    | none =>
      ([CleanupStep.closeMitmproxy, CleanupStep.closeOsProxy]
        ++ fileServerCloseSteps serverCount, true)

/-- The full ordered teardown trace the specification describes, for a
given browser presence and file-server count. -/
def fullCleanupTrace (browser : Option Bool) (serverCount : Nat) : List CleanupStep :=
  [CleanupStep.closeMitmproxy, CleanupStep.closeOsProxy]
    ++ (match browser with
        | some _ => [CleanupStep.closeBrowser]
        | none => [])
    ++ fileServerCloseSteps serverCount

/-! ## Supporting lemmas -/

/-- The function `processSession` characterized through the derived predicate and
emitter: the call errors exactly on a URL-constructor failure, and
otherwise emits `emitCredential` exactly for `hasAllFields` sessions. -/
theorem processSession_char (env : JsEnv) (now : Int) (item : Credential) :
    processSession env now item =
      match parseURL item.url with
      | none => Except.error ()
      | some _ =>
        Except.ok (if hasAllFields item then some (emitCredential env now item) else none) := by
  cases h : parseURL item.url with
  | none => simp [processSession, h]
  | some u =>
    simp only [processSession, hasAllFields, emitCredential, h, Option.getD_some]
    split <;> rfl

/-- Inserting for the descending comparator is a permutation. -/
theorem insertByTimestampDesc_perm (x : Credential) (l : List Credential) :
    List.Perm (insertByTimestampDesc x l) (x :: l) := by
  induction l with
  | nil => exact List.Perm.refl _
  | cons y ys ih =>
    by_cases hx : x.timestamp < y.timestamp
    · simp only [insertByTimestampDesc, if_pos hx]
      exact (ih.cons y).trans (List.Perm.swap x y ys)
    · simp only [insertByTimestampDesc, if_neg hx]
      exact List.Perm.refl _

/-- The descending sort is a permutation of its input. -/
theorem sortByTimestampDesc_perm (l : List Credential) :
    List.Perm (sortByTimestampDesc l) l := by
  induction l with
  | nil => exact List.Perm.refl _
  | cons x xs ih =>
    exact (insertByTimestampDesc_perm x (sortByTimestampDesc xs)).trans (ih.cons x)

/-- Inserting preserves the pairwise descending-timestamp property. -/
theorem insertByTimestampDesc_pairwise (x : Credential) (l : List Credential)
    (hl : l.Pairwise (fun a b => b.timestamp ≤ a.timestamp)) :
    (insertByTimestampDesc x l).Pairwise (fun a b => b.timestamp ≤ a.timestamp) := by
  induction l with
  | nil => simp [insertByTimestampDesc]
  | cons y ys ih =>
    rcases List.pairwise_cons.mp hl with ⟨hy, hys⟩
    by_cases hx : x.timestamp < y.timestamp
    · simp only [insertByTimestampDesc, if_pos hx]
      refine List.pairwise_cons.mpr ⟨?_, ih hys⟩
      intro b hb
      rcases List.mem_cons.mp ((insertByTimestampDesc_perm x ys).mem_iff.mp hb) with hbx | hbys
      · rw [hbx]; exact le_of_lt hx
      · exact hy b hbys
    · simp only [insertByTimestampDesc, if_neg hx]
      refine List.pairwise_cons.mpr ⟨?_, hl⟩
      intro b hb
      rcases List.mem_cons.mp hb with hby | hbys
      · rw [hby]; exact le_of_not_lt hx
      · exact le_trans (hy b hbys) (le_of_not_lt hx)

/-- The descending sort is sorted: timestamps never increase along it. -/
theorem sortByTimestampDesc_pairwise (l : List Credential) :
    (sortByTimestampDesc l).Pairwise (fun a b => b.timestamp ≤ a.timestamp) := by
  induction l with
  | nil => simp [sortByTimestampDesc]
  | cons x xs ih => exact insertByTimestampDesc_pairwise x _ ih

/-- Stability of the insertion step: restricting to any one timestamp
value commutes with inserting. -/
theorem insertByTimestampDesc_filter_eq (x : Credential) (l : List Credential) (t : Int) :
    (insertByTimestampDesc x l).filter (fun c => c.timestamp == t)
      = ((x :: l).filter (fun c => c.timestamp == t)) := by
  induction l with
  | nil => simp [insertByTimestampDesc]
  | cons y ys ih =>
    by_cases hx : x.timestamp < y.timestamp
    · simp only [insertByTimestampDesc, if_pos hx]
      by_cases hxt : x.timestamp = t
      · have hyt : ¬ y.timestamp = t := by omega
        simp [List.filter_cons, hxt, hyt, ih]
      · simp [List.filter_cons, hxt, ih]
    · simp [insertByTimestampDesc, if_neg hx]

/-- Stability of the sort: for every timestamp value, the subsequence of
sessions carrying it is the same before and after sorting — equal
timestamps keep their relative input order. -/
theorem sortByTimestampDesc_filter_eq (l : List Credential) (t : Int) :
    (sortByTimestampDesc l).filter (fun c => c.timestamp == t)
      = l.filter (fun c => c.timestamp == t) := by
  induction l with
  | nil => simp [sortByTimestampDesc]
  | cons x xs ih =>
    calc (insertByTimestampDesc x (sortByTimestampDesc xs)).filter (fun c => c.timestamp == t)
        = (x :: sortByTimestampDesc xs).filter (fun c => c.timestamp == t) :=
          insertByTimestampDesc_filter_eq x _ t
      _ = (x :: xs).filter (fun c => c.timestamp == t) := by
          simp [List.filter_cons, ih]

/-- A normally-returning extraction loop returns exactly the emitted
credentials of the complete sessions, in list order. -/
theorem parseCredentialLoop_ok_eq (env : JsEnv) (now : Int) :
    ∀ (l : List Credential) (out : List ParsedCredential),
      parseCredentialLoop env now l = Except.ok out →
      out = (l.filter hasAllFields).map (emitCredential env now) := by
  intro l
  induction l with
  | nil =>
    intro out h
    simp only [parseCredentialLoop] at h
    simpa using (Except.ok.inj h).symm
  | cons item rest ih =>
    intro out h
    simp only [parseCredentialLoop] at h
    rw [processSession_char] at h
    cases hu : parseURL item.url with
    | none => rw [hu] at h; simp at h
    | some u =>
      rw [hu] at h
      cases hf : hasAllFields item with
      | false =>
        rw [hf] at h
        simp only [Bool.false_eq_true, if_false] at h
        simp [List.filter_cons, hf, ih out h]
      | true =>
        rw [hf] at h
        simp only [if_pos rfl] at h
        cases hr : parseCredentialLoop env now rest with
        | error e => rw [hr] at h; simp at h
        | ok out' =>
          rw [hr] at h
          have h2 : emitCredential env now item :: out' = out := Except.ok.inj h
          simp [List.filter_cons, hf, ← h2, ih out' hr]

/-- When every session's URL constructs, the extraction loop returns
normally, with exactly the complete sessions' credentials. -/
theorem parseCredentialLoop_total (env : JsEnv) (now : Int) :
    ∀ (l : List Credential), (∀ item ∈ l, (parseURL item.url).isSome = true) →
      parseCredentialLoop env now l
        = Except.ok ((l.filter hasAllFields).map (emitCredential env now)) := by
  intro l
  induction l with
  | nil => intro _; simp [parseCredentialLoop]
  | cons item rest ih =>
    intro h
    obtain ⟨u, hu⟩ := Option.isSome_iff_exists.mp (h item (List.mem_cons_self item rest))
    have hrest := ih (fun i hi => h i (List.mem_cons_of_mem item hi))
    simp only [parseCredentialLoop]
    rw [processSession_char, hu]
    cases hf : hasAllFields item with
    | false => simp [hf, hrest, List.filter_cons]
    | true => simp [hf, hrest, List.filter_cons]

/-- A failed map lookup means the key is not among the stored keys. -/
theorem lookup_none_not_mem (root : String) :
    ∀ (l : List (String × Nat)), l.lookup root = none → root ∉ l.map Prod.fst := by
  intro l
  induction l with
  | nil => intro _ h; simp at h
  | cons p t ih =>
    intro h hmem
    simp only [List.lookup] at h
    cases hk : (root == p.fst) with
    | true => rw [hk] at h; exact Option.noConfusion h
    | false =>
      rw [hk] at h
      rw [List.map_cons] at hmem
      rcases List.mem_cons.mp hmem with h1 | h2
      · rw [h1] at hk; simp at hk
      · exact ih h h2

/-! ## Claims -/

/-- C1: the claim states that every traversal request — plain `../` or a
percent-encoded variant — gets a 403 with no filesystem access, because
decoding happens before the containment check.  The code decodes AFTER
the check (`decodeURIComponent` on line 62 runs on `safePath` only after
the `startsWith` test on line 56), contradicting its own line-54 comment
that the request cannot escape the base directory: for root `/r` the
request path `/%2e%2e/secret` passes the containment check undecoded and
the handler then reads the decoded path `/r/../secret`, which the
operating system resolves to `/secret`, outside the root; a plain
`/../secret` request, by contrast, is correctly refused. -/
theorem c1_decode_after_check_code_bug :
    handleRequest "/r" "/%2e%2e/secret" = FileServerResponse.serveFile "/r/../secret"
    ∧ normalizePath "/r/../secret" = "/secret"
    ∧ strStartsWith (normalizePath "/r/../secret") "/r" = false
    ∧ handleRequest "/r" "/../secret" = FileServerResponse.forbidden := by
  decide

/-- C8: an input string on which `JSON.parse` throws makes
`parseCredentialData` return the empty list, raising nothing to the
caller. -/
theorem c8_malformed_json_empty (env : JsEnv) (now : Int) (data : String)
    (h : env.jsonParse data = none) :
    parseCredentialData env now data = Except.ok [] := by
  simp [parseCredentialData, h]

/-- A `JsEnv` on which every `JSON.parse` call throws. -/
def c8Env : JsEnv :=
  { jsonParse := fun _ => none
    stringify := fun _ => "[]"
    formatTime := fun _ => ""
    encodeURIComponent := fun s => s }

/-- Witness for C8 at the concrete malformed input `"not json"`. -/
theorem c8_malformed_json_empty_witness :
    parseCredentialData c8Env 0 "not json" = Except.ok [] :=
  c8_malformed_json_empty c8Env 0 "not json" rfl

/-- A session whose `url` field the `URL` constructor rejects (no
scheme), with every other field present. -/
def c2BadSession : Credential :=
  { biz := "b"
    url := "no url at all"
    set_cookie := "wap_sid2=x;"
    timestamp := 0
    nickname := "n"
    round_head_img := "" }

/-- Environment in which `JSON.parse` succeeds on the store text
`"[bad]"`, producing the single session above. -/
def c2Env : JsEnv :=
  { jsonParse := fun s => if s == "[bad]" then some [c2BadSession] else none
    stringify := fun _ => ""
    formatTime := fun _ => ""
    encodeURIComponent := fun s => s }

/-- C2 counterexample: `parseCredentialData` is claimed never to raise,
yet on a JSON-parseable list containing one session whose `url` is not a
parseable URL the un-guarded `new URL(item.url)` on line 252 throws past
the caller (modelled by `Except.error`). -/
theorem c2_counterexample :
    parseCredentialData c2Env 0 "[bad]" = Except.error () := by
  rfl

/-- C2 (amended): `parseCredentialData` raises no error to its caller
provided every session in a successfully JSON-parsed input has a
parseable `url`; in particular a `JSON.parse` failure still yields an
empty list without raising. -/
theorem c2_no_throw_amended (env : JsEnv) (now : Int) (data : String)
    (h : ∀ item ∈ (env.jsonParse data).getD [], (parseURL item.url).isSome = true) :
    ∃ out, parseCredentialData env now data = Except.ok out := by
  cases hj : env.jsonParse data with
  | none => exact ⟨[], by simp [parseCredentialData, hj]⟩
  | some list =>
    rw [hj] at h
    simp only [Option.getD_some] at h
    refine ⟨((sortByTimestampDesc list).filter hasAllFields).map (emitCredential env now), ?_⟩
    simp only [parseCredentialData, hj]
    exact parseCredentialLoop_total env now _
      (fun item hi => h item ((sortByTimestampDesc_perm list).mem_iff.mp hi))

/-- A complete session with a parseable URL. -/
def c2GoodSession : Credential :=
  { biz := "b"
    url := "https://mp.weixin.qq.com/s?__biz=MzA&uin=u1&key=k1&pass_ticket=p1"
    set_cookie := "wap_sid2=w1;path=/"
    timestamp := 5
    nickname := "n"
    round_head_img := "" }

/-- Environment whose `JSON.parse` yields the good session on `"ok"`. -/
def c2GoodEnv : JsEnv :=
  { jsonParse := fun s => if s == "ok" then some [c2GoodSession] else none
    stringify := fun _ => ""
    formatTime := fun _ => "T"
    encodeURIComponent := fun s => s }

/-- Witness for the amended C2 at a concrete parseable store. -/
theorem c2_no_throw_amended_witness :
    ∃ out, parseCredentialData c2GoodEnv 7 "ok" = Except.ok out :=
  c2_no_throw_amended c2GoodEnv 7 "ok" (by decide)

/-- A session missing nothing except that its `url` cannot be parsed as
a URL at all (a relative reference, rejected without a base). -/
def c3BadSession : Credential :=
  { biz := "b"
    url := "relative/path"
    set_cookie := "wap_sid2=x;"
    timestamp := 0
    nickname := "n"
    round_head_img := "" }

/-- Environment producing the above single session for `"[bad]"`. -/
def c3Env : JsEnv :=
  { jsonParse := fun s => if s == "[bad]" then some [c3BadSession] else none
    stringify := fun _ => ""
    formatTime := fun _ => ""
    encodeURIComponent := fun s => s }

/-- C3 counterexample: for a parseable input list containing one session
whose `url` the `URL` constructor rejects, the claim's conclusion fails:
there is no output list at all (and hence none whose length equals the
count of complete sessions, here `0`) because the call throws instead of
omitting the incomplete session. -/
theorem c3_counterexample :
    ¬ ∃ out, parseCredentialData c3Env 0 "[bad]" = Except.ok out
        ∧ out.length = List.countP hasAllFields [c3BadSession] := by
  rintro ⟨out, hout, -⟩
  have herr : parseCredentialData c3Env 0 "[bad]" = Except.error () := rfl
  rw [herr] at hout
  exact Except.noConfusion hout

/-- C3 (amended): for every parseable input list in which every
session's `url` parses as a URL, a session missing any of the five
required fields is omitted entirely — the output is exactly the
emission of the complete sessions of the sorted list — and the output
length equals the number of input sessions having all five fields
present. -/
theorem c3_omission_amended (env : JsEnv) (now : Int) (data : String)
    (list : List Credential)
    (h1 : env.jsonParse data = some list)
    (h2 : ∀ item ∈ list, (parseURL item.url).isSome = true) :
    ∃ out, parseCredentialData env now data = Except.ok out
      ∧ out = ((sortByTimestampDesc list).filter hasAllFields).map (emitCredential env now)
      ∧ out.length = List.countP hasAllFields list := by
  refine ⟨_, ?_, rfl, ?_⟩
  · simp only [parseCredentialData, h1]
    exact parseCredentialLoop_total env now _
      (fun item hi => h2 item ((sortByTimestampDesc_perm list).mem_iff.mp hi))
  · rw [List.length_map, ← List.countP_eq_length_filter]
    exact (sortByTimestampDesc_perm list).countP_eq hasAllFields

/-- A complete session. -/
def c3Complete : Credential :=
  { biz := "b1"
    url := "https://a/s?__biz=z1&uin=u&key=k&pass_ticket=p"
    set_cookie := "wap_sid2=w1;"
    timestamp := 5
    nickname := "n1"
    round_head_img := "" }

/-- A session with a parseable URL but no `pass_ticket` parameter. -/
def c3Incomplete : Credential :=
  { biz := "b2"
    url := "https://a/s?__biz=z2&uin=u&key=k"
    set_cookie := "wap_sid2=w2;"
    timestamp := 9
    nickname := "n2"
    round_head_img := "" }

/-- Environment producing the two sessions above for `"two"`. -/
def c3GoodEnv : JsEnv :=
  { jsonParse := fun s => if s == "two" then some [c3Complete, c3Incomplete] else none
    stringify := fun _ => ""
    formatTime := fun _ => "T"
    encodeURIComponent := fun s => s }

/-- Witness for the amended C3: one complete and one incomplete session,
both with parseable URLs. -/
theorem c3_omission_amended_witness :
    ∃ out, parseCredentialData c3GoodEnv 0 "two" = Except.ok out
      ∧ out = ((sortByTimestampDesc [c3Complete, c3Incomplete]).filter hasAllFields).map
          (emitCredential c3GoodEnv 0)
      ∧ out.length = List.countP hasAllFields [c3Complete, c3Incomplete] :=
  c3_omission_amended c3GoodEnv 0 "two" [c3Complete, c3Incomplete] rfl (by decide)

/-- C4: for every captured session that yields a `ParsedCredential`, the
derived validity flag is true exactly when the evaluation time is
strictly below the capture timestamp plus 25 minutes (1 500 000 ms): in
particular it is true at every evaluation time in `[T, T + 25min)` and
false at or after `T + 25min`. -/
theorem c4_validity_window (env : JsEnv) (now : Int) (item : Credential)
    (cred : ParsedCredential)
    (h : processSession env now item = Except.ok (some cred)) :
    (cred.valid = true ↔ now < item.timestamp + 1000 * 60 * 25)
    ∧ (item.timestamp ≤ now → now < item.timestamp + 1000 * 60 * 25 → cred.valid = true)
    ∧ (item.timestamp + 1000 * 60 * 25 ≤ now → cred.valid = false) := by
  rw [processSession_char] at h
  cases hu : parseURL item.url with
  | none => rw [hu] at h; exact Except.noConfusion h
  | some u =>
    rw [hu] at h
    cases hf : hasAllFields item with
    | false => rw [hf] at h; simp at h
    | true =>
      rw [hf] at h
      simp only [if_pos rfl] at h
      have hcred : cred = emitCredential env now item :=
        (Option.some.inj (Except.ok.inj h)).symm
      subst hcred
      refine ⟨?_, ?_, ?_⟩
      · simp [emitCredential]
      · intro _ h2; simp only [emitCredential, decide_eq_true_eq]; omega
      · intro h2; simp only [emitCredential, decide_eq_false_iff_not]; omega

/-- The environment and session used to witness C4. -/
def c4Env : JsEnv :=
  { jsonParse := fun _ => none
    stringify := fun _ => ""
    formatTime := fun _ => "T"
    encodeURIComponent := fun s => s }

/-- A complete session captured at epoch millisecond 100. -/
def c4Item : Credential :=
  { biz := "b"
    url := "https://a/s?__biz=z&uin=u&key=k&pass_ticket=p"
    set_cookie := "wap_sid2=w;"
    timestamp := 100
    nickname := "n"
    round_head_img := "" }

/-- The credential `processSession` emits for `c4Item` at time 200. -/
def c4Cred : ParsedCredential :=
  { nickname := "n"
    round_head_img := ""
    biz := "z"
    uin := "u"
    key := "k"
    pass_ticket := "p"
    wap_sid2 := "w"
    time := "T"
    valid := true }

/-- Witness for C4 at evaluation time 200, inside the window. -/
theorem c4_validity_window_witness :
    (c4Cred.valid = true ↔ (200 : Int) < c4Item.timestamp + 1000 * 60 * 25)
    ∧ (c4Item.timestamp ≤ (200 : Int) → (200 : Int) < c4Item.timestamp + 1000 * 60 * 25 →
        c4Cred.valid = true) :=
  ⟨(c4_validity_window c4Env 200 c4Item c4Cred rfl).1,
   (c4_validity_window c4Env 200 c4Item c4Cred rfl).2.1⟩

/-- C5: whenever `parseCredentialData` returns an output for a parseable
input list, that output is the emission, in order, of the complete
sessions of the descending-by-timestamp sorted list; the sorted list's
timestamps never increase along it; and for any fixed timestamp value
the sessions carrying it appear in the sorted list exactly in their
input order (stable sort). -/
theorem c5_sorted_stable (env : JsEnv) (now : Int) (data : String)
    (list : List Credential) (out : List ParsedCredential)
    (h1 : env.jsonParse data = some list)
    (h2 : parseCredentialData env now data = Except.ok out) :
    out = ((sortByTimestampDesc list).filter hasAllFields).map (emitCredential env now)
    ∧ (sortByTimestampDesc list).Pairwise (fun a b => b.timestamp ≤ a.timestamp)
    ∧ ∀ t : Int, (sortByTimestampDesc list).filter (fun c => c.timestamp == t)
        = list.filter (fun c => c.timestamp == t) := by
  refine ⟨?_, sortByTimestampDesc_pairwise list, fun t => sortByTimestampDesc_filter_eq list t⟩
  simp only [parseCredentialData, h1] at h2
  exact parseCredentialLoop_ok_eq env now _ out h2

/-- Three complete sessions: timestamps 5, 9, 9 — the two captured at 9
arrive in the order `z2`, `z3`. -/
def c5S1 : Credential :=
  { biz := "b1"
    url := "https://a/s?__biz=z1&uin=u&key=k&pass_ticket=p"
    set_cookie := "wap_sid2=w1;"
    timestamp := 5
    nickname := "n1"
    round_head_img := "" }

/-- Second session, timestamp 9. -/
def c5S2 : Credential :=
  { biz := "b2"
    url := "https://a/s?__biz=z2&uin=u&key=k&pass_ticket=p"
    set_cookie := "wap_sid2=w2;"
    timestamp := 9
    nickname := "n2"
    round_head_img := "" }

/-- Third session, also timestamp 9, after `c5S2` in input order. -/
def c5S3 : Credential :=
  { biz := "b3"
    url := "https://a/s?__biz=z3&uin=u&key=k&pass_ticket=p"
    set_cookie := "wap_sid2=w3;"
    timestamp := 9
    nickname := "n3"
    round_head_img := "" }

/-- Environment producing the three sessions for `"tri"`. -/
def c5Env : JsEnv :=
  { jsonParse := fun s => if s == "tri" then some [c5S1, c5S2, c5S3] else none
    stringify := fun _ => ""
    formatTime := fun _ => "T"
    encodeURIComponent := fun s => s }

/-- The concrete output of the pipeline on the three sessions: the two
timestamp-9 sessions first, in input order, then the timestamp-5 one. -/
def c5Out : List ParsedCredential :=
  [{ nickname := "n2", round_head_img := "", biz := "z2", uin := "u", key := "k",
     pass_ticket := "p", wap_sid2 := "w2", time := "T", valid := true },
   { nickname := "n3", round_head_img := "", biz := "z3", uin := "u", key := "k",
     pass_ticket := "p", wap_sid2 := "w3", time := "T", valid := true },
   { nickname := "n1", round_head_img := "", biz := "z1", uin := "u", key := "k",
     pass_ticket := "p", wap_sid2 := "w1", time := "T", valid := true }]

/-- Witness for C5 at the concrete three-session store: the returned
list is the sorted-and-filtered emission, and the timestamp-9 sessions
keep their input order through the sort. -/
theorem c5_sorted_stable_witness :
    c5Out = ((sortByTimestampDesc [c5S1, c5S2, c5S3]).filter hasAllFields).map
        (emitCredential c5Env 0)
    ∧ (sortByTimestampDesc [c5S1, c5S2, c5S3]).filter (fun c => c.timestamp == (9 : Int))
        = [c5S1, c5S2, c5S3].filter (fun c => c.timestamp == (9 : Int)) :=
  ⟨(c5_sorted_stable c5Env 0 "tri" [c5S1, c5S2, c5S3] c5Out rfl rfl).1,
   (c5_sorted_stable c5Env 0 "tri" [c5S1, c5S2, c5S3] c5Out rfl rfl).2.2 9⟩

/-- C6: `removeBizCredential` returns `false` with no write attempted
when the store read fails or the store does not parse; on a parsed store
it persists the list with every matching entry removed and returns
`true` when the write succeeds; an absent target leaves the logical list
unchanged; a failing write still returns `false`; and the operation is
total — it never raises past its boundary (the model's return type is a
plain outcome, mirroring the source's enclosing `try`/`catch`). -/
theorem c6_remove_boundary (env : JsEnv) (biz : String) :
    (∀ writeOk, removeBizCredential env none writeOk biz = ⟨false, none⟩)
    ∧ (∀ data writeOk, env.jsonParse data = none →
        removeBizCredential env (some data) writeOk biz = ⟨false, none⟩)
    ∧ (∀ data list, env.jsonParse data = some list →
        removeBizCredential env (some data) true biz
          = ⟨true, some (env.stringify (list.filter (fun item => item.biz != biz)))⟩)
    ∧ (∀ data list, env.jsonParse data = some list → (∀ item ∈ list, item.biz ≠ biz) →
        removeBizCredential env (some data) true biz = ⟨true, some (env.stringify list)⟩)
    ∧ (∀ data list, env.jsonParse data = some list →
        (removeBizCredential env (some data) false biz).ret = false) := by
  refine ⟨fun _ => rfl, ?_, ?_, ?_, ?_⟩
  · intro data writeOk h; simp [removeBizCredential, h]
  · intro data list h; simp [removeBizCredential, h]
  · intro data list h hall
    have hfix : list.filter (fun item => item.biz != biz) = list := by
      apply List.filter_eq_self.mpr
      intro a ha
      simpa using hall a ha
    simp [removeBizCredential, h, hfix]
  · intro data list h; simp [removeBizCredential, h]

/-- Store entry with `bizId` `"a"`. -/
def c6A : Credential :=
  { biz := "a", url := "", set_cookie := "", timestamp := 0, nickname := "", round_head_img := "" }

/-- Store entry with `bizId` `"b"`. -/
def c6B : Credential :=
  { biz := "b", url := "", set_cookie := "", timestamp := 0, nickname := "", round_head_img := "" }

/-- Environment whose store text `"store"` parses to `[a, b]` and whose
serializer prints the comma-joined `bizId`s. -/
def c6Env : JsEnv :=
  { jsonParse := fun s => if s == "store" then some [c6A, c6B] else none
    stringify := fun l => String.intercalate "," (l.map Credential.biz)
    formatTime := fun _ => ""
    encodeURIComponent := fun s => s }

/-- Witness for C6: removing `"a"` from the `[a, b]` store persists the
serialization of `[b]` and returns `true`. -/
theorem c6_remove_boundary_witness :
    removeBizCredential c6Env (some "store") true "a" = ⟨true, some "b"⟩ :=
  ((c6_remove_boundary c6Env "a").2.2.1 "store" [c6A, c6B] rfl).trans rfl

/-- C7 counterexample: the claim states every teardown step still runs
after an individual step failure and that `cleanup` always completes;
but when `MitmproxyManager.close()` rejects, the only attempted step is
the proxy stop — the OS-proxy clear never runs — and `cleanup` itself
raises (completes = `false`). -/
theorem c7_counterexample :
    (cleanup false true none 1).2 = false
    ∧ (cleanup false true none 1).1 = [CleanupStep.closeMitmproxy]
    ∧ CleanupStep.closeOsProxy ∉ (cleanup false true none 1).1 := by
  decide

/-- C7 (amended): `cleanup` attempts its teardown steps in the fixed
order — stop interception proxy, clear OS proxy pointer, close the
browser handle if present, close every registered file server — its
attempted-step trace always being an initial segment of that sequence;
it completes exactly when no fallible step rejects, in which case every
step runs; but a failing step raises and prevents the subsequent steps
from running. -/
theorem c7_ordered_teardown_amended (mitmCloseOk osProxyCloseOk : Bool)
    (browser : Option Bool) (serverCount : Nat) :
    (∃ rest, fullCleanupTrace browser serverCount
        = (cleanup mitmCloseOk osProxyCloseOk browser serverCount).1 ++ rest)
    ∧ ((cleanup mitmCloseOk osProxyCloseOk browser serverCount).2 = true
        ↔ (mitmCloseOk = true ∧ osProxyCloseOk = true ∧ browser ≠ some false))
    ∧ ((cleanup mitmCloseOk osProxyCloseOk browser serverCount).2 = true →
        (cleanup mitmCloseOk osProxyCloseOk browser serverCount).1
          = fullCleanupTrace browser serverCount) := by
  refine ⟨?_, ?_, ?_⟩
  · cases browser with
    | none =>
      cases mitmCloseOk with
      | false => exact ⟨CleanupStep.closeOsProxy :: fileServerCloseSteps serverCount, rfl⟩
      | true =>
        cases osProxyCloseOk with
        | false => exact ⟨fileServerCloseSteps serverCount, rfl⟩
        | true => exact ⟨[], by simp [cleanup, fullCleanupTrace]⟩
    | some b =>
      cases mitmCloseOk with
      | false =>
        exact ⟨CleanupStep.closeOsProxy :: CleanupStep.closeBrowser
          :: fileServerCloseSteps serverCount, rfl⟩
      | true =>
        cases osProxyCloseOk with
        | false => exact ⟨CleanupStep.closeBrowser :: fileServerCloseSteps serverCount, rfl⟩
        | true =>
          cases b with
          | false => exact ⟨fileServerCloseSteps serverCount, rfl⟩
          | true => exact ⟨[], by simp [cleanup, fullCleanupTrace]⟩
  · cases mitmCloseOk <;> cases osProxyCloseOk <;>
      rcases browser with _ | b <;> try cases b
    all_goals simp [cleanup]
  · cases mitmCloseOk <;> cases osProxyCloseOk <;>
      rcases browser with _ | b <;> try cases b
    all_goals simp [cleanup, fullCleanupTrace]

/-- Witness for the amended C7: with every step succeeding, a present
browser handle and two file servers, the attempted trace is the full
ordered teardown sequence. -/
theorem c7_ordered_teardown_amended_witness :
    (cleanup true true (some true) 2).1 = fullCleanupTrace (some true) 2 :=
  (c7_ordered_teardown_amended true true (some true) 2).2.2 rfl

/-- C9: acquiring the file server twice sequentially for an equal root
returns the same instance bound to the same port and leaves the registry
unchanged; and the registry keeps at most one instance per distinct root
(no duplicate root keys) across any acquisition. -/
theorem c9_single_instance_per_root (root : String) (st : FileServerRegistry) :
    (startFileServer root (startFileServer root st).2
      = ((startFileServer root st).1, (startFileServer root st).2))
    ∧ ((st.servers.map Prod.fst).Nodup →
        (((startFileServer root st).2).servers.map Prod.fst).Nodup) := by
  cases h : st.servers.lookup root with
  | some srv =>
    constructor
    · simp [startFileServer, h]
    · intro hn
      simpa [startFileServer, h] using hn
  | none =>
    constructor
    · simp [startFileServer, h, List.lookup]
    · intro hn
      simp only [startFileServer, h, List.map_cons, List.nodup_cons]
      exact ⟨lookup_none_not_mem root st.servers h, hn⟩

/-- A registry already holding a server for another root. -/
def c9Reg : FileServerRegistry := ⟨[("other", 3)], 4⟩

/-- Witness for C9: acquiring `/r` twice on the concrete registry gives
the same instance both times and the keys stay duplicate-free. -/
theorem c9_single_instance_per_root_witness :
    (startFileServer "/r" (startFileServer "/r" c9Reg).2
      = ((startFileServer "/r" c9Reg).1, (startFileServer "/r" c9Reg).2))
    ∧ (((startFileServer "/r" c9Reg).2).servers.map Prod.fst).Nodup :=
  ⟨(c9_single_instance_per_root "/r" c9Reg).1,
   (c9_single_instance_per_root "/r" c9Reg).2 (by decide)⟩

/-- C10: whenever the store read succeeds and the content parses as a
list, `removeBizCredential` hands the serializer's re-serialization of
the filtered list to the write unconditionally — in particular, when no
entry matches the target the persisted bytes are the re-serialization of
the parsed list itself (the logical list unchanged, the formatting the
serializer's). -/
theorem c10_unconditional_rewrite (env : JsEnv) (biz data : String)
    (list : List Credential)
    (h : env.jsonParse data = some list) :
    (removeBizCredential env (some data) true biz).written
        = some (env.stringify (list.filter (fun item => item.biz != biz)))
    ∧ ((∀ item ∈ list, item.biz ≠ biz) →
        (removeBizCredential env (some data) true biz).written = some (env.stringify list)
          ∧ (removeBizCredential env (some data) true biz).ret = true) := by
  constructor
  · simp [removeBizCredential, h]
  · intro hall
    have hfix : list.filter (fun item => item.biz != biz) = list := by
      apply List.filter_eq_self.mpr
      intro a ha
      simpa using hall a ha
    constructor
    · simp [removeBizCredential, h, hfix]
    · simp [removeBizCredential, h]

/-- Environment for the C10 witness (same store, serializer prints the
comma-joined `bizId`s). -/
def c10Env : JsEnv :=
  { jsonParse := fun s => if s == "store" then some [c6A, c6B] else none
    stringify := fun l => String.intercalate "," (l.map Credential.biz)
    formatTime := fun _ => ""
    encodeURIComponent := fun s => s }

/-- Witness for C10: removing the absent `bizId` `"z"` still writes, and
writes the re-serialization of the unchanged list. -/
theorem c10_unconditional_rewrite_witness :
    (removeBizCredential c10Env (some "store") true "z").written
        = some (c10Env.stringify [c6A, c6B])
      ∧ (removeBizCredential c10Env (some "store") true "z").ret = true :=
  (c10_unconditional_rewrite c10Env "z" "store" [c6A, c6B] rfl).2 (by decide)

end WxDown
